import Mathlib

/-!
Verification of the tcp-drawing replication core (src/entity.rs, src/network.rs).

The length-prefixed framing codec (MessageHandler, frame_message), the
server relay/broadcast bookkeeping, the client outbound deduplication loop
and entity spawning are embedded shallowly below.  Bytes are modelled as
natural numbers; the 4-byte little-endian length field is modelled exactly
(including the u32 truncation of the payload length in frame_message).
The f32 coordinate fields of Entity are opaque to the protocol (never
computed with); they are modelled as integer-valued scalars.
-/

namespace TcpDrawing

/-- MAX_BUFFER_SIZE from src/network.rs: the 100,000-byte ceiling for both
the declared payload length and the accumulated buffer. -/
def MAX_BUFFER_SIZE : Nat := 100000

/-- Entity from src/entity.rs.  The x, y, radius fields are f32 in the
source; the protocol treats them opaquely, so they are modelled as
integer-valued scalars.  color is an i32. -/
structure Entity where
  id : Nat
  x : Int
  y : Int
  radius : Int
  color : Int
deriving DecidableEq

/-- Message from src/network.rs (serde untagged enum). -/
inductive Message where
  | NewEntity (e : Entity)
  | AllEntities (es : List Entity)
  | RequestAllEntities
deriving DecidableEq

/-- MessageHandler from src/network.rs: the per-connection decoder state. -/
structure MessageHandler where
  buffer : List Nat
  current_msg_len : Option Nat
deriving DecidableEq

/-- MessageHandler::new. -/
def MessageHandler.new : MessageHandler :=
  { buffer := [], current_msg_len := none }

/-- MessageHandler::extend_buffer. -/
def extend_buffer (h : MessageHandler) (data : List Nat) : MessageHandler :=
  { h with buffer := h.buffer ++ data }

/-- MessageHandler::check_buffer_size: clears buffer and pending length
when the buffer exceeds the ceiling; returns whether it cleared. -/
def check_buffer_size (h : MessageHandler) : Bool × MessageHandler :=
  if h.buffer.length > MAX_BUFFER_SIZE then
    (true, { buffer := [], current_msg_len := none })
  else
    (false, h)

/-- u32::from_le_bytes on a 4-byte list (little endian). -/
def fromLeBytes4 (l : List Nat) : Nat :=
  match l with
  | [a, b, c, d] => a + b * 256 + c * 65536 + d * 16777216
  | _ => 0

/-- u32::to_le_bytes; the argument is truncated modulo 2^32 exactly as the
`as u32` cast in frame_message does. -/
def toLeBytes4 (n : Nat) : List Nat :=
  [n % 256, n / 256 % 256, n / 65536 % 256, n / 16777216 % 256]

/-- The payload-reading second half of MessageHandler::next_message
(the `if let Some(msg_len) = self.current_msg_len` block).  `deser`
stands for serde_json::from_slice. -/
def readPayload (deser : List Nat → Except String Message) (h : MessageHandler) :
    Option (Except String Message) × MessageHandler :=
  match h.current_msg_len with
  | some msg_len =>
    if h.buffer.length < msg_len then (none, h)
    else
      let message_data := h.buffer.take msg_len
      let h2 : MessageHandler := { buffer := h.buffer.drop msg_len, current_msg_len := none }
      match deser message_data with
      | Except.ok m => (some (Except.ok m), h2)
      | Except.error e => (some (Except.error ("Error decoding message: " ++ e)), h2)
  | none => (none, h)

/-- MessageHandler::next_message from src/network.rs.  When no length is
pending it reads the 4-byte little-endian length field, clears the whole
buffer if the declared length exceeds MAX_BUFFER_SIZE, otherwise records
the pending length, drops the header and falls through to payload
reading. -/
def next_message (deser : List Nat → Except String Message) (h : MessageHandler) :
    Option (Except String Message) × MessageHandler :=
  match h.current_msg_len with
  | none =>
    if h.buffer.length < 4 then (none, h)
    else
      let msg_len := fromLeBytes4 (h.buffer.take 4)
      if msg_len > MAX_BUFFER_SIZE then
        (none, { buffer := [], current_msg_len := none })
      else
        readPayload deser { buffer := h.buffer.drop 4, current_msg_len := some msg_len }
  | some _ => readPayload deser h

/-- frame_message from src/network.rs: 4-byte little-endian length header
followed by the serialized payload.  `ser` stands for serde_json::to_vec
(which cannot fail for this message type). -/
def frame_message (ser : Message → List Nat) (m : Message) : List Nat :=
  let data := ser m
  toLeBytes4 data.length ++ data

/-- The `while let Some(message_result) = handler.next_message()` drain
loop, fuel-indexed.  The fuel used by processCycle always suffices. -/
def drainMessages (deser : List Nat → Except String Message) :
    Nat → MessageHandler → List (Except String Message) × MessageHandler
  | 0, h => ([], h)
  | Nat.succ fuel, h =>
    match next_message deser h with
    | (none, h2) => ([], h2)
    | (some r, h2) =>
      let rest := drainMessages deser fuel h2
      (r :: rest.1, rest.2)

/-- One decoder processing cycle as both loops in src/network.rs perform
it: extend_buffer with the chunk read from the socket, drain next_message
until it reports nothing, then check_buffer_size. -/
def processCycle (deser : List Nat → Except String Message) (chunk : List Nat)
    (h : MessageHandler) : List (Except String Message) × MessageHandler :=
  let h1 := extend_buffer h chunk
  let d := drainMessages deser (h1.buffer.length + 2) h1
  (d.1, (check_buffer_size d.2).2)

/-- Feeding a sequence of chunks through successive processing cycles,
collecting every decoded result in order. -/
def processChunks (deser : List Nat → Except String Message) :
    List (List Nat) → MessageHandler → List (Except String Message) × MessageHandler
  | [], h => ([], h)
  | c :: cs, h =>
    let r := processCycle deser c h
    let rest := processChunks deser cs r.2
    (r.1 ++ rest.1, rest.2)

/-- The DashMap<usize, Entity> entity store, modelled as an association
list with DashMap insert semantics (replace the value when the key is
present, otherwise add the pair). -/
def EntityStore := List (Nat × Entity)

/-- DashMap::insert: replace in place when the key exists, else append. -/
def insertEntity : EntityStore → Nat → Entity → EntityStore
  | [], k, e => [(k, e)]
  | (k0, e0) :: rest, k, e =>
    if k0 = k then (k, e) :: rest else (k0, e0) :: insertEntity rest k e

/-- DashMap::get (by key). -/
def lookupEntity : EntityStore → Nat → Option Entity
  | [], _ => none
  | (k0, e0) :: rest, k => if k0 = k then some e0 else lookupEntity rest k

/-- DashMap::contains_key. -/
def storeContains (s : EntityStore) (k : Nat) : Bool :=
  match s with
  | [] => false
  | (k0, _) :: rest => if k0 = k then true else storeContains rest k

/-- Entity::spawn from src/entity.rs: the new id is the current number of
entries of the store, and the new entity is inserted under that id. -/
def spawn (x y radius : Int) (color : Int) (s : EntityStore) :
    Option Nat × EntityStore :=
  let next_id := s.length
  (some next_id,
   insertEntity s next_id { id := next_id, x := x, y := y, radius := radius, color := color })

/-- send_to_clients from src/network.rs: retain_mut keeps exactly the
clients whose write succeeded and counts them.  `writeOk` models whether
send_message to that client succeeds. -/
def send_to_clients (clients : List Nat) (writeOk : Nat → Bool) : List Nat × Nat :=
  (clients.filter writeOk, (clients.filter writeOk).length)

/-- handle_client_message from src/network.rs, for the data it touches:
the updated store and the list of (client index, message) writes it
attempts.  A NewEntity from client_idx is inserted into the store and
forwarded to every enumerated client except client_idx. -/
def handle_client_message (msg : Message) (client_idx : Nat) (clients : List Nat)
    (store : EntityStore) : EntityStore × List (Nat × Message) :=
  match msg with
  | Message.NewEntity entity =>
    (insertEntity store entity.id entity,
     clients.enum.filterMap (fun p =>
       if p.1 = client_idx then none else some (p.1, Message.NewEntity entity)))
  | Message.RequestAllEntities =>
    (store, [(client_idx, Message.AllEntities (store.map (fun p => p.2)))])
  | Message.AllEntities _ => (store, [])

/-- The three index-parallel collections of the server loop in
src/network.rs: clients, client_handlers, client_addresses. -/
structure ServerConns where
  clients : List Nat
  handlers : List MessageHandler
  addresses : List Nat
deriving DecidableEq

/-- One broadcast during local ingestion (start_server, rx drain): only
the `clients` vector is passed to send_to_clients, so only it is filtered
on write failure. -/
def broadcastStep (sc : ServerConns) (writeOk : Nat → Bool) : ServerConns :=
  { clients := (send_to_clients sc.clients writeOk).1,
    handlers := sc.handlers,
    addresses := sc.addresses }

/-- Removing index i from all three collections, with the source's bound
guard on the address list. -/
def removeAt3 (sc : ServerConns) (i : Nat) : ServerConns :=
  { clients := sc.clients.eraseIdx i,
    handlers := sc.handlers.eraseIdx i,
    addresses := if i < sc.addresses.length then sc.addresses.eraseIdx i else sc.addresses }

/-- The end-of-cycle removal pass of start_server: indices are processed
in reverse order of collection. -/
def removalPass (sc : ServerConns) (to_remove : List Nat) : ServerConns :=
  to_remove.reverse.foldl removeAt3 sc

/-- The three lists refer index-by-index to the same peers: they are the
three projections of one common list of peer records. -/
def aligned (sc : ServerConns) : Prop :=
  ∃ peers : List (Nat × MessageHandler × Nat),
    sc.clients = peers.map (fun p => p.1) ∧
    sc.handlers = peers.map (fun p => p.2.1) ∧
    sc.addresses = peers.map (fun p => p.2.2)

/-- The client's AllEntities handling in start_client: entities.clear()
followed by inserting every supplied entity under its own id.  The prior
store is taken (and discarded) exactly as the source discards it. -/
def applyAllEntities (_s : EntityStore) (es : List Entity) : EntityStore :=
  es.foldl (fun acc e => insertEntity acc e.id e) []

/-- The per-entry body of the client outbound loop in start_client:
entities whose id is not in the sent set are sent (collected) and their id
added to the set. -/
def outboundLoop : EntityStore → List Nat → List Nat × List Nat
  | [], sent => ([], sent)
  | (_, e) :: rest, sent =>
    if sent.contains e.id then outboundLoop rest sent
    else
      let r := outboundLoop rest (sent ++ [e.id])
      (e.id :: r.1, r.2)

/-- One outbound tick of start_client: scan the store sending unsent
entities, then prune sent ids no longer present in the store
(sent_entities.retain). -/
def tickOutbound (store : EntityStore) (sent : List Nat) : List Nat × List Nat :=
  let r := outboundLoop store sent
  (r.1, r.2.filter (fun id => storeContains store id))

/-- Successive outbound ticks against a sequence of store snapshots,
recording each tick's sends and the sent set it leaves behind. -/
def runTicks : List EntityStore → List Nat → List (List Nat × List Nat)
  | [], _ => []
  | st :: rest, sent =>
    let t := tickOutbound st sent
    (t.1, t.2) :: runTicks rest t.2

/-- The decoder invariant: any recorded pending payload length is at most
the ceiling. -/
def handlerInv (h : MessageHandler) : Prop :=
  ∀ l, h.current_msg_len = some l → l ≤ MAX_BUFFER_SIZE

/-! ### A concrete executable payload codec

Modelled from the spec: the payload serialization in the source is
serde_json (an external library, not part of src/); spec sections 4.1 and
6 require only a self-describing serialization of Message with
unambiguous variant discrimination.  The executable codec below provides
such a serialization (base-255 digit encoding with a 255 terminator, a
sign byte for integers, and a leading variant tag) and is used to
instantiate the serializer/deserializer parameters of the theorems. -/

/-- Little-endian base-255 digits of n (fuel-indexed, fuel ≥ n). -/
def digitsAux : Nat → Nat → List Nat
  | 0, _ => []
  | Nat.succ fuel, n => if n = 0 then [] else n % 255 :: digitsAux fuel (n / 255)

/-- Little-endian base-255 digits of n. -/
def natDigits (n : Nat) : List Nat := digitsAux n n

/-- Value of a little-endian base-255 digit list. -/
def ofDigits255 (l : List Nat) : Nat := l.foldr (fun d acc => d + 255 * acc) 0

/-- Encode a natural number: its base-255 digits followed by the
terminator byte 255. -/
def encNat (n : Nat) : List Nat := natDigits n ++ [255]

/-- Split a byte list at the first 255 terminator. -/
def splitTerm : List Nat → Option (List Nat × List Nat)
  | [] => none
  | x :: xs =>
    if x = 255 then some ([], xs)
    else (splitTerm xs).map (fun p => (x :: p.1, p.2))

/-- Decode a natural number, returning it with the remaining bytes. -/
def decNat (l : List Nat) : Option (Nat × List Nat) :=
  (splitTerm l).map (fun p => (ofDigits255 p.1, p.2))

/-- Encode an integer: a sign byte then the encoded absolute value. -/
def encInt (i : Int) : List Nat :=
  (if i < 0 then [1] else [0]) ++ encNat i.natAbs

/-- Decode an integer. -/
def decInt (l : List Nat) : Option (Int × List Nat) :=
  match l with
  | 0 :: rest => (decNat rest).map (fun p => ((p.1 : Int), p.2))
  | 1 :: rest => (decNat rest).map (fun p => (-(p.1 : Int), p.2))
  | _ => none

/-- Encode an entity field by field. -/
def encEntity (e : Entity) : List Nat :=
  encNat e.id ++ encInt e.x ++ encInt e.y ++ encInt e.radius ++ encInt e.color

/-- Decode an entity field by field. -/
def decEntity (l : List Nat) : Option (Entity × List Nat) :=
  match decNat l with
  | none => none
  | some (i, r1) =>
    match decInt r1 with
    | none => none
    | some (x, r2) =>
      match decInt r2 with
      | none => none
      | some (y, r3) =>
        match decInt r3 with
        | none => none
        | some (rad, r4) =>
          match decInt r4 with
          | none => none
          | some (c, r5) =>
            some ({ id := i, x := x, y := y, radius := rad, color := c }, r5)

/-- Encode an entity list: its length, then the entities in order. -/
def encEntityList (es : List Entity) : List Nat :=
  encNat es.length ++ (es.map encEntity).flatten

/-- Decode a given number of entities. -/
def decEntityList : Nat → List Nat → Option (List Entity × List Nat)
  | 0, l => some ([], l)
  | Nat.succ n, l =>
    match decEntity l with
    | none => none
    | some (e, r) =>
      match decEntityList n r with
      | none => none
      | some (es, r2) => some (e :: es, r2)

/-- Serialize a Message: a variant tag byte followed by the payload. -/
def serializeMessage : Message → List Nat
  | Message.NewEntity e => 0 :: encEntity e
  | Message.AllEntities es => 1 :: encEntityList es
  | Message.RequestAllEntities => [2]

/-- Deserialize a Message; trailing bytes are an error, as with
serde_json::from_slice. -/
def deserializeMessage (l : List Nat) : Except String Message :=
  match l with
  | 0 :: rest =>
    match decEntity rest with
    | some (e, []) => Except.ok (Message.NewEntity e)
    | _ => Except.error "invalid entity payload"
  | 1 :: rest =>
    match decNat rest with
    | some (n, r2) =>
      match decEntityList n r2 with
      | some (es, []) => Except.ok (Message.AllEntities es)
      | _ => Except.error "invalid entity list payload"
    | none => Except.error "invalid entity list payload"
  | [2] => Except.ok Message.RequestAllEntities
  | _ => Except.error "unknown payload"

/-- The decoder state expected after k bytes of the frame of m have been
fed and drained: header incomplete, payload pending, or frame consumed. -/
def frameStateAt (ser : Message → List Nat) (m : Message) (k : Nat) : MessageHandler :=
  if k < 4 then
    { buffer := (frame_message ser m).take k, current_msg_len := none }
  else if k < 4 + (ser m).length then
    { buffer := (ser m).take (k - 4), current_msg_len := some (ser m).length }
  else
    { buffer := [], current_msg_len := none }

/-- A sample entity used in concrete witnesses. -/
def entW : Entity := { id := 1, x := 2, y := -3, radius := 4, color := 5 }

/-- A zero entity used in the oversized-message counterexample. -/
def entZero : Entity := { id := 0, x := 0, y := 0, radius := 0, color := 0 }

/-- A message whose serialized payload exceeds MAX_BUFFER_SIZE. -/
def bigMsg : Message := Message.AllEntities (List.replicate 12000 entZero)

/-- A second sample entity used in concrete witnesses. -/
def entV : Entity := { id := 2, x := 6, y := 7, radius := 8, color := 9 }

/-- A concrete two-peer server bookkeeping state. -/
def scDemo : ServerConns :=
  { clients := [10, 11],
    handlers := [MessageHandler.new, MessageHandler.new],
    addresses := [100, 101] }

/-- A concrete store with a key gap: keys 0 and 2, size 2. -/
def storeC9 : EntityStore := [(0, entZero), (2, entV)]

/-! ### Codec round-trip lemmas -/

theorem digitsAux_lt_255 : ∀ fuel n d, d ∈ digitsAux fuel n → d < 255 := by
  intro fuel
  induction fuel with
  | zero => simp [digitsAux]
  | succ f ih =>
    intro n d hd
    simp only [digitsAux] at hd
    split at hd
    · simp at hd
    · rcases List.mem_cons.mp hd with h1 | h2
      · subst h1; exact Nat.mod_lt _ (by norm_num)
      · exact ih _ _ h2

theorem ofDigits_digitsAux : ∀ fuel n, n ≤ fuel → ofDigits255 (digitsAux fuel n) = n := by
  intro fuel
  induction fuel with
  | zero =>
    intro n h
    have hn : n = 0 := by omega
    subst hn; rfl
  | succ f ih =>
    intro n h
    by_cases hn : n = 0
    · subst hn; rfl
    · simp only [digitsAux, if_neg hn, ofDigits255, List.foldr_cons]
      have h2 : n / 255 ≤ f := by
        have := Nat.div_lt_self (Nat.pos_of_ne_zero hn) (by norm_num : 1 < 255)
        omega
      have := ih (n / 255) h2
      simp only [ofDigits255] at this
      rw [this]
      omega

theorem natDigits_lt (n d : Nat) (hd : d ∈ natDigits n) : d < 255 :=
  digitsAux_lt_255 n n d hd

theorem ofDigits_natDigits (n : Nat) : ofDigits255 (natDigits n) = n :=
  ofDigits_digitsAux n n le_rfl

theorem splitTerm_spec : ∀ (ds r : List Nat), (∀ d ∈ ds, d < 255) →
    splitTerm (ds ++ 255 :: r) = some (ds, r) := by
  intro ds
  induction ds with
  | nil => intro r _; simp [splitTerm]
  | cons d ds ih =>
    intro r h
    have hd : d < 255 := h d (by simp)
    have hne : d ≠ 255 := by omega
    simp [splitTerm, hne, ih r (fun x hx => h x (by simp [hx]))]

theorem decNat_encNat (n : Nat) (r : List Nat) : decNat (encNat n ++ r) = some (n, r) := by
  have h : encNat n ++ r = natDigits n ++ 255 :: r := by
    simp [encNat, List.append_assoc]
  rw [decNat, h, splitTerm_spec _ _ (fun d hd => natDigits_lt n d hd)]
  simp [ofDigits_natDigits]

theorem decInt_encInt (i : Int) (r : List Nat) : decInt (encInt i ++ r) = some (i, r) := by
  by_cases hi : i < 0
  · have h : encInt i ++ r = 1 :: (encNat i.natAbs ++ r) := by
      simp [encInt, if_pos hi]
    have habs : ((i.natAbs : Nat) : Int) = -i := by omega
    rw [h]
    simp [decInt, decNat_encNat, habs]
  · have h : encInt i ++ r = 0 :: (encNat i.natAbs ++ r) := by
      simp [encInt, if_neg hi]
    have habs : ((i.natAbs : Nat) : Int) = i := by omega
    rw [h]
    simp [decInt, decNat_encNat, habs]

theorem decEntity_encEntity (e : Entity) (r : List Nat) :
    decEntity (encEntity e ++ r) = some (e, r) := by
  have h : encEntity e ++ r =
      encNat e.id ++ (encInt e.x ++ (encInt e.y ++ (encInt e.radius ++ (encInt e.color ++ r)))) := by
    simp [encEntity, List.append_assoc]
  rw [h]
  cases e with
  | mk i x y rad c =>
    simp [decEntity, decNat_encNat, decInt_encInt]

theorem decEntityList_enc : ∀ (es : List Entity) (r : List Nat),
    decEntityList es.length ((es.map encEntity).flatten ++ r) = some (es, r) := by
  intro es
  induction es with
  | nil => intro r; simp [decEntityList]
  | cons e es ih =>
    intro r
    simp only [List.map_cons, List.flatten_cons, List.length_cons]
    rw [List.append_assoc]
    simp [decEntityList, decEntity_encEntity, ih]

/-- The concrete codec satisfies the round-trip law the spec demands of the
payload serialization. -/
theorem deserialize_serialize (m : Message) :
    deserializeMessage (serializeMessage m) = Except.ok m := by
  cases m with
  | NewEntity e =>
    have h := decEntity_encEntity e []
    rw [List.append_nil] at h
    simp [serializeMessage, deserializeMessage, h]
  | AllEntities es =>
    have h1 := decNat_encNat es.length ((es.map encEntity).flatten ++ [])
    have h2 := decEntityList_enc es []
    rw [List.append_nil] at h1 h2
    simp [serializeMessage, deserializeMessage, encEntityList, h1, h2]
  | RequestAllEntities => rfl

/-! ### next_message case lemmas -/

theorem fromLe_toLe (n : Nat) (h : n < 4294967296) : fromLeBytes4 (toLeBytes4 n) = n := by
  simp only [fromLeBytes4, toLeBytes4]
  omega

theorem toLeBytes4_length (n : Nat) : (toLeBytes4 n).length = 4 := rfl

theorem nm_short (deser : List Nat → Except String Message) (b : List Nat)
    (hb : b.length < 4) :
    next_message deser { buffer := b, current_msg_len := none } =
      (none, { buffer := b, current_msg_len := none }) := by
  simp [next_message, hb]

theorem nm_oversize (deser : List Nat → Except String Message) (b : List Nat)
    (hb : 4 ≤ b.length) (hov : MAX_BUFFER_SIZE < fromLeBytes4 (b.take 4)) :
    next_message deser { buffer := b, current_msg_len := none } =
      (none, { buffer := [], current_msg_len := none }) := by
  simp only [next_message]
  rw [if_neg (by omega), if_pos hov]

theorem nm_header (deser : List Nat → Except String Message) (L : Nat) (t : List Nat)
    (hL : L ≤ MAX_BUFFER_SIZE) (hLlt : L < 4294967296) (hshort : t.length < L) :
    next_message deser { buffer := toLeBytes4 L ++ t, current_msg_len := none } =
      (none, { buffer := t, current_msg_len := some L }) := by
  have hlen : (toLeBytes4 L ++ t).length = 4 + t.length := by
    simp [toLeBytes4]; omega
  have htake : (toLeBytes4 L ++ t).take 4 = toLeBytes4 L := by
    rw [List.take_append_of_le_length (by simp [toLeBytes4])]
    simp [toLeBytes4]
  have hdrop : (toLeBytes4 L ++ t).drop 4 = t := by
    rw [List.drop_append_of_le_length (by simp [toLeBytes4])]
    simp [toLeBytes4]
  simp only [next_message, hlen]
  rw [if_neg (by omega)]
  simp only [htake, hdrop, fromLe_toLe L hLlt]
  rw [if_neg (by omega)]
  simp [readPayload, hshort]

theorem nm_complete_ok (deser : List Nat → Except String Message) (L : Nat) (t : List Nat)
    (m : Message) (hL : L ≤ MAX_BUFFER_SIZE) (hLlt : L < 4294967296) (hlen : L ≤ t.length)
    (hok : deser (t.take L) = Except.ok m) :
    next_message deser { buffer := toLeBytes4 L ++ t, current_msg_len := none } =
      (some (Except.ok m), { buffer := t.drop L, current_msg_len := none }) := by
  have hlen4 : (toLeBytes4 L ++ t).length = 4 + t.length := by
    simp [toLeBytes4]; omega
  have htake : (toLeBytes4 L ++ t).take 4 = toLeBytes4 L := by
    rw [List.take_append_of_le_length (by simp [toLeBytes4])]
    simp [toLeBytes4]
  have hdrop : (toLeBytes4 L ++ t).drop 4 = t := by
    rw [List.drop_append_of_le_length (by simp [toLeBytes4])]
    simp [toLeBytes4]
  simp only [next_message, hlen4]
  rw [if_neg (by omega)]
  simp only [htake, hdrop, fromLe_toLe L hLlt]
  rw [if_neg (by omega)]
  simp [readPayload, Nat.not_lt.mpr hlen, hok]

theorem nm_complete_err (deser : List Nat → Except String Message) (L : Nat) (t : List Nat)
    (s : String) (hL : L ≤ MAX_BUFFER_SIZE) (hLlt : L < 4294967296) (hlen : L ≤ t.length)
    (herr : deser (t.take L) = Except.error s) :
    next_message deser { buffer := toLeBytes4 L ++ t, current_msg_len := none } =
      (some (Except.error ("Error decoding message: " ++ s)),
       { buffer := t.drop L, current_msg_len := none }) := by
  have hlen4 : (toLeBytes4 L ++ t).length = 4 + t.length := by
    simp [toLeBytes4]; omega
  have htake : (toLeBytes4 L ++ t).take 4 = toLeBytes4 L := by
    rw [List.take_append_of_le_length (by simp [toLeBytes4])]
    simp [toLeBytes4]
  have hdrop : (toLeBytes4 L ++ t).drop 4 = t := by
    rw [List.drop_append_of_le_length (by simp [toLeBytes4])]
    simp [toLeBytes4]
  simp only [next_message, hlen4]
  rw [if_neg (by omega)]
  simp only [htake, hdrop, fromLe_toLe L hLlt]
  rw [if_neg (by omega)]
  simp [readPayload, Nat.not_lt.mpr hlen, herr]

theorem nm_pending_short (deser : List Nat → Except String Message) (L : Nat) (b : List Nat)
    (hb : b.length < L) :
    next_message deser { buffer := b, current_msg_len := some L } =
      (none, { buffer := b, current_msg_len := some L }) := by
  simp [next_message, readPayload, hb]

theorem nm_pending_ok (deser : List Nat → Except String Message) (L : Nat) (b : List Nat)
    (m : Message) (hb : L ≤ b.length) (hok : deser (b.take L) = Except.ok m) :
    next_message deser { buffer := b, current_msg_len := some L } =
      (some (Except.ok m), { buffer := b.drop L, current_msg_len := none }) := by
  simp [next_message, readPayload, Nat.not_lt.mpr hb, hok]

/-! ### drain loop and check lemmas -/

theorem drain_none (deser : List Nat → Except String Message) (fuel : Nat)
    (h h2 : MessageHandler) (hnm : next_message deser h = (none, h2)) :
    drainMessages deser (fuel + 1) h = ([], h2) := by
  simp [drainMessages, hnm]

theorem drain_cons (deser : List Nat → Except String Message) (fuel : Nat)
    (h h2 : MessageHandler) (r : Except String Message)
    (hnm : next_message deser h = (some r, h2)) :
    drainMessages deser (fuel + 1) h =
      (r :: (drainMessages deser fuel h2).1, (drainMessages deser fuel h2).2) := by
  simp [drainMessages, hnm]

theorem check_id (h : MessageHandler) (hb : h.buffer.length ≤ MAX_BUFFER_SIZE) :
    check_buffer_size h = (false, h) := by
  simp [check_buffer_size, Nat.not_lt.mpr hb]

theorem drain_stop (deser : List Nat → Except String Message) (fuel : Nat)
    (h h2 : MessageHandler) (hfuel : 1 ≤ fuel)
    (hnm : next_message deser h = (none, h2)) :
    drainMessages deser fuel h = ([], h2) := by
  obtain ⟨g, rfl⟩ : ∃ g, fuel = g + 1 := ⟨fuel - 1, by omega⟩
  simp [drainMessages, hnm]

theorem drain_one (deser : List Nat → Except String Message) (fuel : Nat)
    (h h1 h2 : MessageHandler) (r : Except String Message) (hfuel : 2 ≤ fuel)
    (hnm1 : next_message deser h = (some r, h1))
    (hnm2 : next_message deser h1 = (none, h2)) :
    drainMessages deser fuel h = ([r], h2) := by
  obtain ⟨g, rfl⟩ : ∃ g, fuel = g + 2 := ⟨fuel - 2, by omega⟩
  simp [drainMessages, hnm1, hnm2]

theorem processCycle_eq (deser : List Nat → Except String Message) (c : List Nat)
    (h : MessageHandler) (outs : List (Except String Message)) (h2 : MessageHandler)
    (hdrain : drainMessages deser (h.buffer.length + c.length + 2)
        { buffer := h.buffer ++ c, current_msg_len := h.current_msg_len } = (outs, h2))
    (hb : h2.buffer.length ≤ MAX_BUFFER_SIZE) :
    processCycle deser c h = (outs, h2) := by
  have hrec : ({ h with buffer := h.buffer ++ c } : MessageHandler) =
      { buffer := h.buffer ++ c, current_msg_len := h.current_msg_len } := rfl
  have hlen : (h.buffer ++ c).length = h.buffer.length + c.length := by simp
  simp only [processCycle, extend_buffer, hrec, hlen, hdrain]
  simp [check_id h2 hb]

/-! ### Feeding an arbitrary split of one frame -/

theorem frame_cycle_step (ser : Message → List Nat)
    (deser : List Nat → Except String Message) (m : Message)
    (hrt : deser (ser m) = Except.ok m)
    (hL : (ser m).length ≤ MAX_BUFFER_SIZE) (k n : Nat)
    (hkn : k + n ≤ 4 + (ser m).length) :
    processCycle deser (((frame_message ser m).drop k).take n) (frameStateAt ser m k) =
      ((if k < 4 + (ser m).length ∧ k + n = 4 + (ser m).length
          then [Except.ok m] else []),
       frameStateAt ser m (k + n)) := by
  have hM : MAX_BUFFER_SIZE = 100000 := rfl
  have hLlt : (ser m).length < 4294967296 := by omega
  have hdf : frame_message ser m = toLeBytes4 (ser m).length ++ ser m := rfl
  have hflen : (frame_message ser m).length = 4 + (ser m).length := by
    rw [hdf]; simp [toLeBytes4]; omega
  have hstate_lt4 : ∀ j, j < 4 → frameStateAt ser m j =
      { buffer := (frame_message ser m).take j, current_msg_len := none } := by
    intro j hj; simp [frameStateAt, hj]
  have hstate_mid : ∀ j, 4 ≤ j → j < 4 + (ser m).length → frameStateAt ser m j =
      { buffer := (ser m).take (j - 4), current_msg_len := some (ser m).length } := by
    intro j h1 h2
    rw [frameStateAt, if_neg (by omega), if_pos h2]
  have hstate_end : ∀ j, 4 + (ser m).length ≤ j → frameStateAt ser m j =
      { buffer := [], current_msg_len := none } := by
    intro j hj
    rw [frameStateAt, if_neg (by omega), if_neg (by omega)]
  have htake_len : ∀ j, j ≤ 4 + (ser m).length →
      ((frame_message ser m).take j).length = j := by
    intro j hj; simp [hflen]; omega
  have hdrop_mid : ∀ j, 4 ≤ j →
      (frame_message ser m).drop j = (ser m).drop (j - 4) := by
    intro j hj
    rw [hdf, List.drop_append_eq_append_drop]
    have h1 : (toLeBytes4 (ser m).length).drop j = [] := by
      apply List.drop_eq_nil_of_le
      simp [toLeBytes4]; omega
    rw [h1, toLeBytes4_length, List.nil_append]
  by_cases hA : k + n < 4
  · -- all of the fed prefix is still header: nothing decoded, bytes kept
    have hk : k < 4 := by omega
    rw [hstate_lt4 k hk, hstate_lt4 (k + n) (by omega), if_neg (by omega)]
    apply processCycle_eq
    · rw [show ((frame_message ser m).take k) ++ ((frame_message ser m).drop k).take n
          = (frame_message ser m).take (k + n) from (List.take_add _ _ _).symm]
      exact drain_stop _ _ _ _ (by omega)
        (nm_short _ _ (by rw [htake_len (k + n) (by omega)]; omega))
    · rw [htake_len (k + n) (by omega)]; omega
  · by_cases hB : k < 4
    · -- the header completes during this chunk
      rw [hstate_lt4 k hB]
      by_cases hC : k + n < 4 + (ser m).length
      · -- payload still incomplete: length recorded, header consumed
        rw [hstate_mid (k + n) (by omega) hC, if_neg (by omega)]
        apply processCycle_eq
        · rw [show ((frame_message ser m).take k) ++ ((frame_message ser m).drop k).take n
              = (frame_message ser m).take (k + n) from (List.take_add _ _ _).symm]
          have hsplit : (frame_message ser m).take (k + n) =
              toLeBytes4 (ser m).length ++ (ser m).take (k + n - 4) := by
            rw [hdf, List.take_append_eq_append_take, toLeBytes4_length,
              List.take_of_length_le
                (show (toLeBytes4 (ser m).length).length ≤ k + n by
                  rw [toLeBytes4_length]; omega)]
          rw [hsplit]
          exact drain_stop _ _ _ _ (by omega)
            (nm_header _ _ _ hL hLlt (by simp; omega))
        · simp; omega
      · -- the chunk completes the frame: the message is decoded
        have hCe : k + n = 4 + (ser m).length := by omega
        rw [hstate_end (k + n) (by omega), if_pos ⟨by omega, hCe⟩]
        apply processCycle_eq
        · rw [show ((frame_message ser m).take k) ++ ((frame_message ser m).drop k).take n
              = (frame_message ser m).take (k + n) from (List.take_add _ _ _).symm]
          have hfull : (frame_message ser m).take (k + n) = frame_message ser m := by
            apply List.take_of_length_le
            omega
          have hnm1 : next_message deser
              { buffer := toLeBytes4 (ser m).length ++ ser m, current_msg_len := none } =
              (some (Except.ok m), { buffer := [], current_msg_len := none }) := by
            have hx := nm_complete_ok deser (ser m).length (ser m) m hL hLlt le_rfl
              (by rw [List.take_length]; exact hrt)
            rw [List.drop_length] at hx
            exact hx
          rw [hfull, hdf]
          exact drain_one _ _ _ _ _ _ (by omega) hnm1 (nm_short _ _ (by simp))
        · simp
    · -- the header was already consumed on entry: a payload length is pending
      have hk4 : 4 ≤ k := by omega
      by_cases hD : k < 4 + (ser m).length
      · rw [hstate_mid k hk4 hD]
        by_cases hE : k + n < 4 + (ser m).length
        · -- payload still incomplete after this chunk
          rw [hstate_mid (k + n) (by omega) hE, if_neg (by omega)]
          apply processCycle_eq
          · rw [hdrop_mid k hk4]
            rw [show ((ser m).take (k - 4)) ++ ((ser m).drop (k - 4)).take n
                = (ser m).take (k - 4 + n) from (List.take_add _ _ _).symm]
            rw [show k - 4 + n = k + n - 4 from by omega]
            exact drain_stop _ _ _ _ (by omega)
              (nm_pending_short _ _ _ (by simp; omega))
          · simp; omega
        · -- the chunk completes the payload: the message is decoded
          have hEe : k + n = 4 + (ser m).length := by omega
          rw [hstate_end (k + n) (by omega), if_pos ⟨by omega, hEe⟩]
          apply processCycle_eq
          · rw [hdrop_mid k hk4]
            rw [show ((ser m).take (k - 4)) ++ ((ser m).drop (k - 4)).take n
                = (ser m).take (k - 4 + n) from (List.take_add _ _ _).symm]
            rw [show k - 4 + n = (ser m).length from by omega, List.take_length]
            have hnm1 : next_message deser
                { buffer := ser m, current_msg_len := some (ser m).length } =
                (some (Except.ok m), { buffer := [], current_msg_len := none }) := by
              have hx := nm_pending_ok deser (ser m).length (ser m) m le_rfl
                (by rw [List.take_length]; exact hrt)
              rw [List.drop_length] at hx
              exact hx
            exact drain_one _ _ _ _ _ _ (by omega) hnm1 (nm_short _ _ (by simp))
          · simp
      · -- the frame was already fully consumed: the chunk must be empty
        have hke : k = 4 + (ser m).length := by omega
        have hn0 : n = 0 := by omega
        rw [hstate_end k (by omega), hstate_end (k + n) (by omega), if_neg (by omega), hn0]
        apply processCycle_eq
        · simp only [List.take_zero, List.append_nil]
          exact drain_stop _ _ _ _ (by omega) (nm_short _ _ (by simp))
        · simp

theorem frame_message_length (ser : Message → List Nat) (m : Message) :
    (frame_message ser m).length = 4 + (ser m).length := by
  show (toLeBytes4 (ser m).length ++ ser m).length = _
  simp [toLeBytes4]; omega

theorem frame_chunks (ser : Message → List Nat)
    (deser : List Nat → Except String Message) (m : Message)
    (hrt : deser (ser m) = Except.ok m)
    (hL : (ser m).length ≤ MAX_BUFFER_SIZE) :
    ∀ (cs : List (List Nat)) (k : Nat), k ≤ 4 + (ser m).length →
      cs.flatten = (frame_message ser m).drop k →
      processChunks deser cs (frameStateAt ser m k) =
        ((if k < 4 + (ser m).length then [Except.ok m] else []),
         frameStateAt ser m (4 + (ser m).length)) := by
  intro cs
  induction cs with
  | nil =>
    intro k hk hj
    have hke : k = 4 + (ser m).length := by
      have hlen := congrArg List.length hj
      simp [frame_message_length] at hlen
      omega
    rw [if_neg (by omega), hke]
    rfl
  | cons c cs ih =>
    intro k hk hj
    have hkc : k + c.length ≤ 4 + (ser m).length := by
      have hlen := congrArg List.length hj
      simp [frame_message_length] at hlen
      omega
    have hc : c = ((frame_message ser m).drop k).take c.length := by
      have hx := congrArg (List.take c.length) hj
      rw [List.flatten_cons, List.take_left' rfl] at hx
      exact hx
    have hcs : cs.flatten = (frame_message ser m).drop (k + c.length) := by
      have hx := congrArg (List.drop c.length) hj
      rw [List.flatten_cons, List.drop_left' rfl, List.drop_drop] at hx
      exact hx
    simp only [processChunks]
    conv_lhs => rw [hc]
    rw [frame_cycle_step ser deser m hrt hL k c.length hkc,
      ih (k + c.length) hkc hcs]
    by_cases h1 : k + c.length < 4 + (ser m).length
    · rw [if_neg (by omega), if_pos h1, if_pos (by omega)]
      simp
    · have he : k + c.length = 4 + (ser m).length := by omega
      by_cases h2 : k < 4 + (ser m).length
      · rw [if_pos ⟨h2, he⟩, if_neg (by omega), if_pos h2]
        simp
      · rw [if_neg (by omega), if_neg (by omega), if_neg h2]
        simp

theorem oversized_frame_dropped (ser : Message → List Nat)
    (deser : List Nat → Except String Message) (m : Message)
    (hbig : MAX_BUFFER_SIZE < (ser m).length) (hlt : (ser m).length < 4294967296) :
    processChunks deser [frame_message ser m] MessageHandler.new =
      ([], MessageHandler.new) := by
  have htake : (frame_message ser m).take 4 = toLeBytes4 (ser m).length := by
    show (toLeBytes4 (ser m).length ++ ser m).take 4 = _
    rw [List.take_left' (toLeBytes4_length (ser m).length)]
  have hnm : next_message deser { buffer := frame_message ser m, current_msg_len := none } =
      (none, { buffer := [], current_msg_len := none }) := by
    apply nm_oversize
    · rw [frame_message_length]; omega
    · rw [htake, fromLe_toLe _ hlt]; exact hbig
  have hcycle : processCycle deser (frame_message ser m) MessageHandler.new =
      ([], MessageHandler.new) := by
    apply processCycle_eq
    · exact drain_stop _ _ _ _ (by omega) hnm
    · simp [MessageHandler.new]
  simp [processChunks, hcycle]

theorem new_eq_frameStateAt (ser : Message → List Nat) (m : Message) :
    MessageHandler.new = frameStateAt ser m 0 := by
  simp [frameStateAt, MessageHandler.new]

/-- C1 (amended): framing round-trip under arbitrary chunking.  For any
payload codec satisfying the round-trip law, and any Message m whose
serialized payload is at most MAX_BUFFER_SIZE bytes, framing m with
frame_message and feeding the bytes to a fresh MessageHandler split into
any sequence of chunks (draining next_message after each chunk, as the
source loops do) yields exactly the single decoded message m and nothing
else. -/
theorem C1_frame_roundtrip_chunked (ser : Message → List Nat)
    (deser : List Nat → Except String Message) (m : Message)
    (hrt : deser (ser m) = Except.ok m)
    (hL : (ser m).length ≤ MAX_BUFFER_SIZE)
    (chunks : List (List Nat)) (hj : chunks.flatten = frame_message ser m) :
    (processChunks deser chunks MessageHandler.new).1 = [Except.ok m] := by
  rw [new_eq_frameStateAt ser m,
    frame_chunks ser deser m hrt hL chunks 0 (by omega) (by simpa using hj),
    if_pos (by omega)]

/-- Witness for C1: a concrete NewEntity message, framed and delivered one
byte at a time, decodes to exactly itself. -/
theorem C1_witness :
    (processChunks deserializeMessage
      ((frame_message serializeMessage (Message.NewEntity entW)).map (fun b => [b]))
      MessageHandler.new).1 = [Except.ok (Message.NewEntity entW)] :=
  C1_frame_roundtrip_chunked serializeMessage deserializeMessage (Message.NewEntity entW)
    (deserialize_serialize (Message.NewEntity entW)) (by decide) _ (by decide)

/-- Counterexample to C1 as stated: bigMsg is a Message (an AllEntities
list of 12000 entities) whose round-tripping codec payload exceeds
MAX_BUFFER_SIZE, so frame_message frames it but the decoder's oversize
guard discards it: decoding yields nothing rather than the message. -/
theorem C1_counterexample :
    deserializeMessage (serializeMessage bigMsg) = Except.ok bigMsg ∧
    MAX_BUFFER_SIZE < (serializeMessage bigMsg).length ∧
    (processChunks deserializeMessage [frame_message serializeMessage bigMsg]
      MessageHandler.new).1 = [] := by
  have h1 : (encNat 12000).length = 3 := by decide
  have h2 : (encEntity entZero).length = 9 := by decide
  have hlen : (serializeMessage bigMsg).length = 108004 := by
    show (1 :: (encNat (List.replicate 12000 entZero).length ++
        ((List.replicate 12000 entZero).map encEntity).flatten)).length = 108004
    rw [List.length_replicate, List.map_replicate, List.length_cons,
      List.length_append, h1, List.length_flatten, List.map_replicate, h2,
      List.sum_replicate, smul_eq_mul]
  refine ⟨deserialize_serialize bigMsg, by rw [hlen]; decide, ?_⟩
  rw [oversized_frame_dropped serializeMessage deserializeMessage bigMsg
    (by rw [hlen]; decide) (by rw [hlen]; decide)]

/-- C2: when the 4-byte little-endian length field at the head of the
buffer (with no payload length pending) declares a length above
MAX_BUFFER_SIZE, next_message clears the entire buffer, leaves no pending
length and reports no message; a fresh valid frame appended after that
point decodes correctly. -/
theorem C2_oversize_resync (ser : Message → List Nat)
    (deser : List Nat → Except String Message) (m : Message) (b : List Nat)
    (hb4 : 4 ≤ b.length)
    (hover : MAX_BUFFER_SIZE < fromLeBytes4 (b.take 4))
    (hrt : deser (ser m) = Except.ok m)
    (hL : (ser m).length ≤ MAX_BUFFER_SIZE) :
    next_message deser { buffer := b, current_msg_len := none } =
      (none, { buffer := [], current_msg_len := none }) ∧
    (processChunks deser [frame_message ser m]
      { buffer := [], current_msg_len := none }).1 = [Except.ok m] := by
  constructor
  · exact nm_oversize deser b hb4 hover
  · have hn : ({ buffer := [], current_msg_len := none } : MessageHandler) =
        MessageHandler.new := rfl
    rw [hn, new_eq_frameStateAt ser m,
      frame_chunks ser deser m hrt hL [frame_message ser m] 0 (by omega) (by simp),
      if_pos (by omega)]

/-- Witness for C2: a buffer declaring length 100001 is cleared, and a
RequestAllEntities frame fed afterwards decodes. -/
theorem C2_witness :
    next_message deserializeMessage
      { buffer := [161, 134, 1, 0], current_msg_len := none } =
      (none, { buffer := [], current_msg_len := none }) ∧
    (processChunks deserializeMessage
      [frame_message serializeMessage Message.RequestAllEntities]
      { buffer := [], current_msg_len := none }).1 =
      [Except.ok Message.RequestAllEntities] :=
  C2_oversize_resync serializeMessage deserializeMessage Message.RequestAllEntities
    [161, 134, 1, 0] (by decide) (by decide)
    (deserialize_serialize Message.RequestAllEntities) (by decide)

/-- C3: a complete buffered frame whose payload fails to deserialize is
consumed exactly (header and payload), a decode failure is reported, the
following bytes stay in the buffer, and the next call decodes the next
frame normally. -/
theorem C3_decode_failure_consumes (ser : Message → List Nat)
    (deser : List Nat → Except String Message) (m2 : Message) (L : Nat)
    (payload : List Nat) (s : String)
    (hlen : payload.length = L) (hL : L ≤ MAX_BUFFER_SIZE)
    (herr : deser payload = Except.error s)
    (hrt : deser (ser m2) = Except.ok m2)
    (hL2 : (ser m2).length ≤ MAX_BUFFER_SIZE) :
    next_message deser
      { buffer := toLeBytes4 L ++ (payload ++ frame_message ser m2),
        current_msg_len := none } =
      (some (Except.error ("Error decoding message: " ++ s)),
       { buffer := frame_message ser m2, current_msg_len := none }) ∧
    next_message deser { buffer := frame_message ser m2, current_msg_len := none } =
      (some (Except.ok m2), { buffer := [], current_msg_len := none }) := by
  have hM : MAX_BUFFER_SIZE = 100000 := rfl
  have hLlt : L < 4294967296 := by omega
  constructor
  · have ht : (payload ++ frame_message ser m2).take L = payload := List.take_left' hlen
    have hd : (payload ++ frame_message ser m2).drop L = frame_message ser m2 :=
      List.drop_left' hlen
    have hx := nm_complete_err deser L (payload ++ frame_message ser m2) s hL hLlt
      (by rw [List.length_append]; omega) (by rw [ht]; exact herr)
    rw [hd] at hx
    exact hx
  · have hL2lt : (ser m2).length < 4294967296 := by omega
    have hx := nm_complete_ok deser (ser m2).length (ser m2) m2 hL2 hL2lt le_rfl
      (by rw [List.take_length]; exact hrt)
    rw [List.drop_length] at hx
    exact hx

/-- Witness for C3: a one-byte undecodable payload is consumed with an
error and the RequestAllEntities frame behind it decodes next. -/
theorem C3_witness :
    next_message deserializeMessage
      { buffer := toLeBytes4 1 ++ ([7] ++ frame_message serializeMessage
          Message.RequestAllEntities), current_msg_len := none } =
      (some (Except.error ("Error decoding message: " ++ "unknown payload")),
       { buffer := frame_message serializeMessage Message.RequestAllEntities,
         current_msg_len := none }) ∧
    next_message deserializeMessage
      { buffer := frame_message serializeMessage Message.RequestAllEntities,
        current_msg_len := none } =
      (some (Except.ok Message.RequestAllEntities),
       { buffer := [], current_msg_len := none }) :=
  C3_decode_failure_consumes serializeMessage deserializeMessage
    Message.RequestAllEntities 1 [7] "unknown payload" (by decide) (by decide)
    rfl (deserialize_serialize Message.RequestAllEntities) (by decide)

/-- C4: feeding any strict prefix of a frame (fewer than 4 bytes, or fewer
bytes than the declared payload length) yields no message, and feeding the
remaining bytes later completes and returns the message the full frame
encodes. -/
theorem C4_partial_frame (ser : Message → List Nat)
    (deser : List Nat → Except String Message) (m : Message)
    (hrt : deser (ser m) = Except.ok m)
    (hL : (ser m).length ≤ MAX_BUFFER_SIZE) (k : Nat)
    (hk : k < (frame_message ser m).length) :
    (processCycle deser ((frame_message ser m).take k) MessageHandler.new).1 = [] ∧
    (processChunks deser [(frame_message ser m).take k, (frame_message ser m).drop k]
      MessageHandler.new).1 = [Except.ok m] := by
  have hflen := frame_message_length ser m
  constructor
  · have hstep := frame_cycle_step ser deser m hrt hL 0 k (by omega)
    simp only [List.drop_zero, Nat.zero_add] at hstep
    rw [new_eq_frameStateAt ser m, hstep, if_neg (by omega)]
  · rw [new_eq_frameStateAt ser m,
      frame_chunks ser deser m hrt hL _ 0 (by omega) (by simp),
      if_pos (by omega)]

/-- Witness for C4: three bytes of a framed one-entity AllEntities message
yield nothing; the rest completes it. -/
theorem C4_witness :
    (processCycle deserializeMessage
      ((frame_message serializeMessage (Message.AllEntities [entW])).take 3)
      MessageHandler.new).1 = [] ∧
    (processChunks deserializeMessage
      [(frame_message serializeMessage (Message.AllEntities [entW])).take 3,
       (frame_message serializeMessage (Message.AllEntities [entW])).drop 3]
      MessageHandler.new).1 = [Except.ok (Message.AllEntities [entW])] :=
  C4_partial_frame serializeMessage deserializeMessage (Message.AllEntities [entW])
    (deserialize_serialize (Message.AllEntities [entW])) (by decide) 3 (by decide)

/-! ### C5: the index-parallel server bookkeeping -/

theorem mapEraseIdx {α β : Type} (f : α → β) :
    ∀ (l : List α) (i : Nat), (l.map f).eraseIdx i = (l.eraseIdx i).map f := by
  intro l
  induction l with
  | nil => intro i; simp
  | cons a l ih =>
    intro i
    cases i with
    | zero => simp
    | succ j => simp [List.eraseIdx, ih j]

theorem aligned_removeAt3 (sc : ServerConns) (i : Nat) (halign : aligned sc) :
    aligned (removeAt3 sc i) := by
  obtain ⟨peers, h1, h2, h3⟩ := halign
  refine ⟨peers.eraseIdx i, ?_, ?_, ?_⟩
  · simp [removeAt3, h1, mapEraseIdx]
  · simp [removeAt3, h2, mapEraseIdx]
  · simp only [removeAt3, h3]
    by_cases hi : i < (peers.map (fun p => p.2.2)).length
    · rw [if_pos hi, mapEraseIdx]
    · rw [if_neg hi, List.eraseIdx_of_length_le (by simp at hi ⊢; omega)]

theorem aligned_removalPass (sc : ServerConns) (to_remove : List Nat)
    (halign : aligned sc) : aligned (removalPass sc to_remove) := by
  rw [removalPass]
  generalize to_remove.reverse = l
  induction l generalizing sc with
  | nil => exact halign
  | cons i l ih => exact ih (removeAt3 sc i) (aligned_removeAt3 sc i halign)

theorem aligned_lengths (sc : ServerConns) (halign : aligned sc) :
    sc.clients.length = sc.handlers.length ∧
    sc.clients.length = sc.addresses.length := by
  obtain ⟨peers, h1, h2, h3⟩ := halign
  simp [h1, h2, h3]

/-- Counterexample to C5 as stated: from an aligned two-peer state, a
broadcast in which the write to the first peer fails removes that peer
from the connection list only, leaving the decoder-state and address lists
with a different length than the connection list. -/
theorem C5_counterexample :
    aligned scDemo ∧
    (broadcastStep scDemo (fun c => decide (c ≠ 10))).clients.length = 1 ∧
    (broadcastStep scDemo (fun c => decide (c ≠ 10))).handlers.length = 2 ∧
    (broadcastStep scDemo (fun c => decide (c ≠ 10))).addresses.length = 2 := by
  refine ⟨⟨[(10, MessageHandler.new, 100), (11, MessageHandler.new, 101)], rfl, rfl, rfl⟩, ?_⟩
  decide

/-- C5 (amended): the end-of-cycle reverse-order removal pass preserves
the alignment (equal lengths, index-wise same peer) of the connection,
decoder-state and address lists, and a broadcast preserves it when every
write succeeds; but a failed write during a broadcast (send_to_clients)
filters only the connection list, so alignment is not preserved then. -/
theorem C5_parallel_lists_amended (sc : ServerConns) (halign : aligned sc)
    (writeOk : Nat → Bool) (hok : ∀ c ∈ sc.clients, writeOk c = true)
    (to_remove : List Nat) :
    aligned (broadcastStep sc writeOk) ∧
    aligned (removalPass sc to_remove) ∧
    (removalPass sc to_remove).clients.length =
      (removalPass sc to_remove).handlers.length ∧
    (removalPass sc to_remove).clients.length =
      (removalPass sc to_remove).addresses.length := by
  have hfilter : sc.clients.filter writeOk = sc.clients := List.filter_eq_self.mpr hok
  have hbc : broadcastStep sc writeOk = sc := by
    simp [broadcastStep, send_to_clients, hfilter]
  have hrp := aligned_removalPass sc to_remove halign
  exact ⟨by rw [hbc]; exact halign, hrp, (aligned_lengths _ hrp).1, (aligned_lengths _ hrp).2⟩

/-- Witness for C5 (amended): the two-peer state with all writes
succeeding and removal of index 0. -/
theorem C5_witness :
    aligned (broadcastStep scDemo (fun _ => true)) ∧
    aligned (removalPass scDemo [0]) ∧
    (removalPass scDemo [0]).clients.length = (removalPass scDemo [0]).handlers.length ∧
    (removalPass scDemo [0]).clients.length = (removalPass scDemo [0]).addresses.length :=
  C5_parallel_lists_amended scDemo
    ⟨[(10, MessageHandler.new, 100), (11, MessageHandler.new, 101)], rfl, rfl, rfl⟩
    (fun _ => true) (fun _ _ => rfl) [0]

/-! ### C6: relay excludes the sender -/

/-- C6: a NewEntity received from the connection at index i is inserted
into the entity store under its id, the same NewEntity message is written
to every other connected index, and no write ever targets index i. -/
theorem C6_relay_excludes_sender (e : Entity) (i : Nat) (clients : List Nat)
    (store : EntityStore) :
    (handle_client_message (Message.NewEntity e) i clients store).1 =
      insertEntity store e.id e ∧
    (∀ x ∈ (handle_client_message (Message.NewEntity e) i clients store).2,
      x.1 ≠ i ∧ x.2 = Message.NewEntity e) ∧
    (∀ j, j < clients.length → j ≠ i →
      (j, Message.NewEntity e) ∈
        (handle_client_message (Message.NewEntity e) i clients store).2) := by
  refine ⟨rfl, ?_, ?_⟩
  · intro x hx
    simp only [handle_client_message] at hx
    obtain ⟨p, hp, hpx⟩ := List.mem_filterMap.mp hx
    by_cases hpi : p.1 = i
    · simp [hpi] at hpx
    · simp [hpi] at hpx
      exact ⟨by rw [← hpx]; exact hpi, by rw [← hpx]⟩
  · intro j hj hji
    simp only [handle_client_message]
    apply List.mem_filterMap.mpr
    refine ⟨(j, clients.get ⟨j, hj⟩), ?_, by simp [hji]⟩
    apply List.mem_enum_iff_getElem?.mpr
    simp [List.getElem?_eq_getElem hj]

/-- Witness for C6: three peers, sender index 0; the message reaches
indices 1 and 2 only. -/
theorem C6_witness :
    (handle_client_message (Message.NewEntity entW) 0 [10, 11, 12] []).1 =
      insertEntity [] entW.id entW ∧
    ((1, Message.NewEntity entW) ∈
      (handle_client_message (Message.NewEntity entW) 0 [10, 11, 12] []).2) ∧
    ((2, Message.NewEntity entW) ∈
      (handle_client_message (Message.NewEntity entW) 0 [10, 11, 12] []).2) ∧
    (∀ x ∈ (handle_client_message (Message.NewEntity entW) 0 [10, 11, 12] []).2,
      x.1 ≠ 0) := by
  have h := C6_relay_excludes_sender entW 0 [10, 11, 12] []
  exact ⟨h.1, h.2.2 1 (by decide) (by decide), h.2.2 2 (by decide) (by decide),
    fun x hx => (h.2.1 x hx).1⟩

/-! ### C7: AllEntities is a destructive replace -/

theorem lookup_insertEntity_self (s : EntityStore) (k : Nat) (e : Entity) :
    lookupEntity (insertEntity s k e) k = some e := by
  induction s with
  | nil => simp [insertEntity, lookupEntity]
  | cons p rest ih =>
    obtain ⟨k0, e0⟩ := p
    by_cases hk : k0 = k
    · simp [insertEntity, hk, lookupEntity]
    · simp [insertEntity, hk, lookupEntity, ih]

theorem lookup_insertEntity_other (s : EntityStore) (k k2 : Nat) (e : Entity)
    (h : k2 ≠ k) :
    lookupEntity (insertEntity s k e) k2 = lookupEntity s k2 := by
  induction s with
  | nil => simp [insertEntity, lookupEntity, Ne.symm h]
  | cons p rest ih =>
    obtain ⟨k0, e0⟩ := p
    by_cases hk : k0 = k
    · subst hk
      simp [insertEntity, lookupEntity, Ne.symm h]
    · simp only [insertEntity, if_neg hk, lookupEntity]
      by_cases hk2 : k0 = k2
      · simp [hk2]
      · simp [hk2, ih]

theorem lookup_fold_not_mem (es : List Entity) :
    ∀ (acc : EntityStore) (k : Nat), k ∉ es.map Entity.id →
      lookupEntity (es.foldl (fun a e => insertEntity a e.id e) acc) k =
        lookupEntity acc k := by
  induction es with
  | nil => intro acc k _; rfl
  | cons e es ih =>
    intro acc k hk
    simp only [List.map_cons, List.mem_cons, not_or] at hk
    rw [List.foldl_cons, ih _ k hk.2, lookup_insertEntity_other _ _ _ _ hk.1]

theorem lookup_fold_mem (es : List Entity) :
    ∀ (acc : EntityStore) (e : Entity), e ∈ es → (es.map Entity.id).Nodup →
      lookupEntity (es.foldl (fun a x => insertEntity a x.id x) acc) e.id = some e := by
  induction es with
  | nil => intro acc e he _; simp at he
  | cons x xs ih =>
    intro acc e he hnd
    simp only [List.map_cons, List.nodup_cons] at hnd
    rw [List.foldl_cons]
    rcases List.mem_cons.mp he with he1 | he2
    · subst he1
      rw [lookup_fold_not_mem xs _ e.id hnd.1, lookup_insertEntity_self]
    · exact ih _ e he2 hnd.2

/-- C7: applying AllEntities(es) to any prior store clears it entirely and
re-inserts exactly the supplied entities keyed by their ids: each supplied
entity is found under its id, and every other id (including ids previously
present) is absent. -/
theorem C7_snapshot_replace (s : EntityStore) (es : List Entity)
    (hnd : (es.map Entity.id).Nodup) :
    (∀ e ∈ es, lookupEntity (applyAllEntities s es) e.id = some e) ∧
    (∀ k, k ∉ es.map Entity.id → lookupEntity (applyAllEntities s es) k = none) := by
  constructor
  · intro e he
    exact lookup_fold_mem es [] e he hnd
  · intro k hk
    rw [applyAllEntities, lookup_fold_not_mem es [] k hk]
    rfl

/-- Witness for C7: replacing a store holding unrelated id 99 with two
entities leaves exactly those two and removes id 99. -/
theorem C7_witness :
    lookupEntity (applyAllEntities [(99, entZero)] [entW, entV]) entW.id = some entW ∧
    lookupEntity (applyAllEntities [(99, entZero)] [entW, entV]) entV.id = some entV ∧
    lookupEntity (applyAllEntities [(99, entZero)] [entW, entV]) 99 = none := by
  have h := C7_snapshot_replace [(99, entZero)] [entW, entV] (by decide)
  exact ⟨h.1 entW (by decide), h.1 entV (by decide), h.2 99 (by decide)⟩

/-! ### C8: outbound deduplication on the client -/

theorem contains_true_iff (l : List Nat) (a : Nat) : l.contains a = true ↔ a ∈ l := by
  simp

theorem outbound_sent_mono (store : EntityStore) :
    ∀ (sent : List Nat) (id : Nat), id ∈ sent →
      id ∈ (outboundLoop store sent).2 ∧ id ∉ (outboundLoop store sent).1 := by
  induction store with
  | nil => intro sent id hid; exact ⟨hid, by simp [outboundLoop]⟩
  | cons p rest ih =>
    intro sent id hid
    obtain ⟨k, e⟩ := p
    by_cases hmem : e.id ∈ sent
    · simp only [outboundLoop]
      rw [if_pos ((contains_true_iff sent e.id).mpr hmem)]
      exact ih sent id hid
    · have hne : id ≠ e.id := fun he => hmem (he ▸ hid)
      have hrec := ih (sent ++ [e.id]) id (by simp [hid])
      simp only [outboundLoop]
      rw [if_neg (fun hx => hmem ((contains_true_iff sent e.id).mp hx))]
      exact ⟨hrec.1, by simp [hne, hrec.2]⟩

theorem tick_no_resend (store : EntityStore) (sent : List Nat) (id : Nat)
    (hid : id ∈ sent) (hin : storeContains store id = true) :
    id ∉ (tickOutbound store sent).1 ∧ id ∈ (tickOutbound store sent).2 := by
  have hm := outbound_sent_mono store sent id hid
  refine ⟨hm.2, ?_⟩
  simp only [tickOutbound, List.mem_filter]
  exact ⟨hm.1, hin⟩

theorem tick_prune (store : EntityStore) (sent : List Nat) (j : Nat)
    (hj : j ∈ (tickOutbound store sent).2) : storeContains store j = true := by
  simp only [tickOutbound, List.mem_filter] at hj
  exact hj.2

/-- C8: once an entity id is in the sent set, outbound ticks whose store
snapshots keep containing that id never send it again; and after every
tick the sent set holds only ids present in that tick's store snapshot. -/
theorem C8_outbound_dedup (stores : List EntityStore) (sent : List Nat) (id : Nat)
    (hid : id ∈ sent) (hall : ∀ st ∈ stores, storeContains st id = true) :
    (∀ p ∈ runTicks stores sent, id ∉ p.1) ∧
    (∀ q ∈ stores.zip (runTicks stores sent), ∀ j ∈ q.2.2,
      storeContains q.1 j = true) := by
  induction stores generalizing sent with
  | nil => exact ⟨by simp [runTicks], by simp [runTicks]⟩
  | cons st rest ih =>
    have hst : storeContains st id = true := hall st (by simp)
    have htick := tick_no_resend st sent id hid hst
    have hrec := ih (tickOutbound st sent).2 htick.2
      (fun s hs => hall s (by simp [hs]))
    constructor
    · intro p hp
      simp only [runTicks, List.mem_cons] at hp
      rcases hp with hp1 | hp2
      · rw [hp1]; exact htick.1
      · exact hrec.1 p hp2
    · intro q hq
      simp only [runTicks, List.zip_cons_cons, List.mem_cons] at hq
      rcases hq with hq1 | hq2
      · intro j hj
        rw [hq1]
        rw [hq1] at hj
        exact tick_prune st sent j hj
      · exact hrec.2 q hq2

/-- Witness for C8: id 1 already sent, two ticks against stores containing
id 1: it is never resent and the sent set stays within the store. -/
theorem C8_witness :
    (∀ p ∈ runTicks [[(1, entW)], [(1, entW)]] [1], (1 : Nat) ∉ p.1) ∧
    (∀ q ∈ ([[(1, entW)], [(1, entW)]] : List EntityStore).zip
        (runTicks [[(1, entW)], [(1, entW)]] [1]), ∀ j ∈ q.2.2,
      storeContains q.1 j = true) :=
  C8_outbound_dedup [[(1, entW)], [(1, entW)]] [1] 1 (by decide) (by decide)

/-! ### C9: spawn id assignment -/

theorem storeContains_iff (s : EntityStore) (k : Nat) :
    storeContains s k = true ↔ k ∈ s.map Prod.fst := by
  induction s with
  | nil => simp [storeContains]
  | cons p rest ih =>
    obtain ⟨k0, e0⟩ := p
    by_cases hk : k0 = k
    · simp [storeContains, hk]
    · have hk2 : k ≠ k0 := fun hh => hk hh.symm
      simp [storeContains, hk, ih, hk2]

theorem insertEntity_fresh_length (s : EntityStore) (k : Nat) (e : Entity)
    (hk : k ∉ s.map Prod.fst) :
    (insertEntity s k e).length = s.length + 1 := by
  induction s with
  | nil => rfl
  | cons p rest ih =>
    obtain ⟨k0, e0⟩ := p
    simp only [List.map_cons, List.mem_cons, not_or] at hk
    have hne : ¬ k0 = k := fun hh => hk.1 hh.symm
    simp only [insertEntity, if_neg hne, List.length_cons, ih hk.2]

/-- Counterexample to C9 as stated: on a store with keys 0 and 2 (size 2),
Entity::spawn assigns the new id entities.len() = 2, which is already the
id of an entity in the store; the insert replaces that entity and the
store size does not grow. -/
theorem C9_counterexample :
    (spawn 7 8 9 10 storeC9).1 = some 2 ∧
    storeContains storeC9 2 = true ∧
    ((spawn 7 8 9 10 storeC9).2).length = storeC9.length ∧
    lookupEntity ((spawn 7 8 9 10 storeC9).2) 2 ≠ some entV := by
  decide

/-- C9 (amended): spawn assigns the new entity the id entities.len(); this
id is distinct from every id already present, and the spawn inserts rather
than replaces, provided every key already in the store is below the store
size (as is the case when all entities were spawned sequentially). -/
theorem C9_spawn_fresh_amended (x y radius color : Int) (s : EntityStore)
    (h : ∀ k ∈ s.map Prod.fst, k < s.length) :
    (spawn x y radius color s).1 = some s.length ∧
    storeContains s s.length = false ∧
    ((spawn x y radius color s).2).length = s.length + 1 ∧
    (∀ k ∈ s.map Prod.fst,
      lookupEntity ((spawn x y radius color s).2) k = lookupEntity s k) := by
  have hfresh : s.length ∉ s.map Prod.fst := by
    intro hmem
    exact absurd (h s.length hmem) (by omega)
  refine ⟨rfl, ?_, ?_, ?_⟩
  · rw [← Bool.not_eq_true]
    intro hc
    exact hfresh ((storeContains_iff s s.length).mp hc)
  · exact insertEntity_fresh_length s s.length _ hfresh
  · intro k hk
    have hne : k ≠ s.length := by
      have := h k hk
      omega
    exact lookup_insertEntity_other s s.length k _ hne

/-- Witness for C9 (amended): a gap-free store with keys 0 and 1. -/
theorem C9_witness :
    (spawn 7 8 9 10 [(0, entZero), (1, entW)]).1 = some 2 ∧
    storeContains [(0, entZero), (1, entW)] 2 = false ∧
    ((spawn 7 8 9 10 [(0, entZero), (1, entW)]).2).length = 2 + 1 ∧
    lookupEntity ((spawn 7 8 9 10 [(0, entZero), (1, entW)]).2) 0 =
      lookupEntity [(0, entZero), (1, entW)] 0 := by
  have h := C9_spawn_fresh_amended 7 8 9 10 [(0, entZero), (1, entW)] (by decide)
  exact ⟨h.1, h.2.1, h.2.2.1, h.2.2.2 0 (by decide)⟩

/-! ### C10: decoder memory stays bounded -/

theorem nm_preserves_inv (deser : List Nat → Except String Message)
    (h : MessageHandler) (hinv : handlerInv h) :
    handlerInv (next_message deser h).2 := by
  rcases hcur : h.current_msg_len with _ | L
  · simp only [next_message, hcur]
    split
    · exact hinv
    · split
      · intro l hl; simp at hl
      · rename_i hle hov
        simp only [readPayload]
        split
        · intro l hl
          have hlv : fromLeBytes4 (h.buffer.take 4) = l := by simpa using hl
          omega
        · split <;> intro l hl <;> simp at hl
  · simp only [next_message, hcur, readPayload]
    split
    · exact hinv
    · split <;> intro l hl <;> simp at hl

theorem drain_preserves_inv (deser : List Nat → Except String Message) :
    ∀ (fuel : Nat) (h : MessageHandler), handlerInv h →
      handlerInv (drainMessages deser fuel h).2 := by
  intro fuel
  induction fuel with
  | zero => intro h hi; exact hi
  | succ f ih =>
    intro h hi
    rcases hnm : next_message deser h with ⟨r, h2⟩
    have h2inv : handlerInv h2 := by
      have hx := nm_preserves_inv deser h hi
      rw [hnm] at hx
      exact hx
    cases r with
    | none => simpa [drainMessages, hnm] using h2inv
    | some r =>
      simp only [drainMessages, hnm]
      exact ih h2 h2inv

theorem check_bound_inv (h : MessageHandler) (hi : handlerInv h) :
    ((check_buffer_size h).2).buffer.length ≤ MAX_BUFFER_SIZE ∧
    handlerInv (check_buffer_size h).2 := by
  rw [check_buffer_size]
  split
  · exact ⟨by simp, by intro l hl; simp at hl⟩
  · rename_i hle
    exact ⟨by show h.buffer.length ≤ MAX_BUFFER_SIZE; omega, hi⟩

/-- C10: one full decoder processing cycle (extend_buffer, next_message
drained to exhaustion, check_buffer_size) leaves the buffer at most
MAX_BUFFER_SIZE bytes and any recorded pending payload length at most
MAX_BUFFER_SIZE, provided the incoming state satisfied the pending-length
bound; so from a fresh handler the bound holds between all cycles. -/
theorem C10_buffer_bounded (deser : List Nat → Except String Message)
    (chunk : List Nat) (h : MessageHandler) (hinv : handlerInv h) :
    ((processCycle deser chunk h).2).buffer.length ≤ MAX_BUFFER_SIZE ∧
    handlerInv (processCycle deser chunk h).2 := by
  have hext : handlerInv (extend_buffer h chunk) := fun l hl => hinv l hl
  have hd := drain_preserves_inv deser
    ((extend_buffer h chunk).buffer.length + 2) (extend_buffer h chunk) hext
  simp only [processCycle]
  exact check_bound_inv _ hd

/-- Witness for C10: a fresh handler fed a three-byte junk chunk. -/
theorem C10_witness :
    ((processCycle deserializeMessage [1, 2, 3] MessageHandler.new).2).buffer.length ≤
      MAX_BUFFER_SIZE ∧
    handlerInv (processCycle deserializeMessage [1, 2, 3] MessageHandler.new).2 :=
  C10_buffer_bounded deserializeMessage [1, 2, 3] MessageHandler.new
    (fun _ hl => Option.noConfusion hl)

end TcpDrawing
